import Mathlib

/-!
Shallow embedding of the offline-npm-repository crawl engine
(`internal/entities`, `internal/repositories`, `internal/services`),
with theorems checking the natural-language specification against it.

Machine integers of the Go source (`int`) are modelled as `Int`; byte
streams as `List Nat`; `time.Time` instants as `Int` via the order
embedding `t ↦ sec(t) * 10^9 + nsec(t)` shifted so that the zero
`time.Time` maps to `0` (this preserves `After`, which is the strict
order, and the zero value, which is *not* minimal in Go).
-/

namespace NpmOffline

/-- Go `time.Time`, order-embedded into `Int`; `Time.after` models
`time.Time.After` (strict order). -/
abbrev Time := Int

/-- The zero `time.Time` value (`time.Time{}`). -/
def zeroTime : Time := 0

/-- Go `a.After(b)`: strictly later. -/
def timeAfter (a b : Time) : Bool := decide (b < a)

/-- Go `strings.Compare`: `0` when equal, `-1` when `a` sorts before `b`,
`1` otherwise.  Byte-lexicographic order on UTF-8 strings coincides with
the codepoint-lexicographic order used by Lean's `String` order. -/
def stringsCompare (a b : String) : Int :=
  if a = b then 0 else if a < b then -1 else 1

/-- `internal/entities/semver.go`: `SemVer` represents a Semantic
Versioning structure. -/
structure SemVer where
  Major : Int
  Minor : Int
  Patch : Int
  PreRelease : String
deriving DecidableEq

/-- `SemVer.Compare` from `internal/entities/semver.go`: returns `-1` if
`v < other`, `0` if `v == other`, and `1` if `v > other`. -/
def SemVer.Compare (v other : SemVer) : Int :=
  if v.Major ≠ other.Major then
    (if v.Major > other.Major then 1 else -1)
  else if v.Minor ≠ other.Minor then
    (if v.Minor > other.Minor then 1 else -1)
  else if v.Patch ≠ other.Patch then
    (if v.Patch > other.Patch then 1 else -1)
  else if v.PreRelease = "" ∧ other.PreRelease ≠ "" then
    1
  else if v.PreRelease ≠ "" ∧ other.PreRelease = "" then
    -1
  else if v.PreRelease ≠ "" ∧ other.PreRelease ≠ "" then
    stringsCompare v.PreRelease other.PreRelease
  else
    0

/-- `SemVer.IsPreRelease` from `internal/entities/semver.go`. -/
def SemVer.IsPreRelease (v : SemVer) : Bool := v.PreRelease ≠ ""

/-- Sort key realising `SemVer.Compare` as a lexicographic comparison: the
pre-release component maps the empty tag above every non-empty tag. -/
def SemVer.key (v : SemVer) : Int ×ₗ (Int ×ₗ (Int ×ₗ (Nat ×ₗ String))) :=
  toLex (v.Major, toLex (v.Minor, toLex (v.Patch,
    toLex (if v.PreRelease = "" then ((1 : Nat), v.PreRelease) else ((0 : Nat), v.PreRelease)))))

/-- Three-way comparison induced by a linear order; helper for relating
`SemVer.Compare` to the lexicographic order on `SemVer.key`. -/
def lexCmp {α : Type} [LinearOrder α] (x y : α) : Int :=
  if x < y then -1 else if y < x then 1 else 0

/-- A compiled Go regular expression (`regexp.Regexp`), abstracted to its
source text (the `String()` method) and its matching function
(`MatchString`). -/
structure Regexp where
  source : String
  matchString : String → Bool

/-- `NpmPackage` from `internal/entities/npm_package.go` (the variant
carrying `ReleaseDate`, consumed by the metadata pipeline). -/
structure NpmPackage where
  Name : String
  Version : SemVer
  Dependencies : List String
  PeerDeps : List String
  Integrity : String
  Url : String
  ReleaseDate : Time

/-- `RetrievePackage` from `internal/entities/npm_package.go`: a crawl
target (seed descriptor) with an optional pre-release predicate and the
precomputed fingerprint (`fullName`). -/
structure RetrievePackage where
  Name : String
  allowedPreVersion : Option Regexp
  fullName : String

/-- Helper for `goSplitPipe`: structural split of a character list on the
`'|'` character, accumulating the current field. -/
def splitPipeAux : List Char → List Char → List String
  | [], acc => [String.mk acc]
  | c :: cs, acc =>
    if c = '|' then String.mk acc :: splitPipeAux cs []
    else splitPipeAux cs (acc ++ [c])

/-- Go `strings.Split(s, "|")`: the separator is a single ASCII character,
so the byte-level split coincides with this character-level one. -/
def goSplitPipe (s : String) : List String := splitPipeAux s.data []

/-- Go `unicode.IsSpace`: the Unicode `White_Space` property, which Go's
`strings.TrimSpace` trims on both sides — the six ASCII space characters,
NEL (U+0085), NBSP (U+00A0), and the category-Z space code points
U+1680, U+2000..U+200A, U+2028, U+2029, U+202F, U+205F and U+3000. -/
def isGoSpace (c : Char) : Bool :=
  c = ' ' || c = '\t' || c = '\n' || c = '\x0b' || c = '\x0c' || c = '\r'
  || c.val = 0x85 || c.val = 0xA0 || c.val = 0x1680
  || (0x2000 ≤ c.val && c.val ≤ 0x200A)
  || c.val = 0x2028 || c.val = 0x2029 || c.val = 0x202F || c.val = 0x205F
  || c.val = 0x3000

/-- Go `strings.TrimSpace`, restricted to ASCII white space. -/
def goTrimSpace (s : String) : String :=
  String.mk (((s.data.dropWhile isGoSpace).reverse.dropWhile isGoSpace).reverse)

/-- `NewRetrievePackage`: splits the argument on `"|"`, compiles the
optional pre-release pattern (`compile` stands for `regexp.Compile`; its
error is discarded, so a failed compilation leaves no predicate), and
precomputes the fingerprint. -/
def NewRetrievePackage (compile : String → Option Regexp) (name : String) : RetrievePackage :=
  let parts := goSplitPipe name
  let re : Option Regexp :=
    match parts with
    | _ :: p1 :: _ => if p1 ≠ "" then compile p1 else none
    | _ => none
  let nme := parts.headD ""
  let fullName :=
    match re with
    | none => nme
    | some r => nme ++ "|" ++ r.source
  ⟨nme, re, fullName⟩

/-- `RetrievePackage.IsMatchingPreRelease`: a pre-release tag is allowed
only when a predicate is present and matches it. -/
def RetrievePackage.IsMatchingPreRelease (r : RetrievePackage) (preRelease : String) : Bool :=
  match r.allowedPreVersion with
  | none => false
  | some re => re.matchString preRelease

/-- `RetrievePackage.String`: the fingerprint (`name` or
`name|predicate`), used as the crawl-state map key and as the state-file
line. -/
def RetrievePackage.StringRepr (r : RetrievePackage) : String := r.fullName

/-- Lifecycle constant from `internal/entities/local_npm_state.go`. -/
def PreviouslyInLocalRepoState : Int := 0

/-- Lifecycle constant from `internal/entities/local_npm_state.go`. -/
def AnalysingState : Int := 1

/-- Lifecycle constant from `internal/entities/local_npm_state.go`. -/
def AnalysedState : Int := 2

/-- `localNpmState` from `internal/entities/local_npm_state.go`; the Go
`map[string]int` is modelled as a function to `Option Int`. -/
structure LocalNpmState where
  states : String → Option Int
  lastSync : Time
  downloadedCount : Int
  analysedCount : Int

/-- `NewLocalNpmState`: every loaded package starts in
`PreviouslyInLocalRepoState`; counters start at zero. -/
def NewLocalNpmState (packages : List RetrievePackage) (lastSync : Time) : LocalNpmState :=
  { states := fun k =>
      if packages.any (fun p => decide (p.StringRepr = k)) then some PreviouslyInLocalRepoState
      else none
    lastSync := lastSync
    downloadedCount := 0
    analysedCount := 0 }

/-- `localNpmState.SetState`: updates the entry keyed by the package's
fingerprint. -/
def LocalNpmState.SetState (d : LocalNpmState) (pkg : RetrievePackage) (state : Int) :
    LocalNpmState :=
  { d with states := fun k => if k = pkg.StringRepr then some state else d.states k }

/-- `localNpmState.GetLastSync`: the global last-sync timestamp when the
fingerprint is known, otherwise the zero timestamp. -/
def LocalNpmState.GetLastSync (d : LocalNpmState) (pkg : RetrievePackage) : Time :=
  match d.states pkg.StringRepr with
  | none => zeroTime
  | some _ => d.lastSync

/-- `localNpmState.IsAnalysisNeeded`: true unless the current state is
`AnalysedState`. -/
def LocalNpmState.IsAnalysisNeeded (d : LocalNpmState) (pkg : RetrievePackage) : Bool :=
  match d.states pkg.StringRepr with
  | none => true
  | some s => s ≠ AnalysedState

/-- `localNpmState.IsAnalysisStarted`: true iff an entry exists and is not
`PreviouslyInLocalRepoState`. -/
def LocalNpmState.IsAnalysisStarted (d : LocalNpmState) (pkg : RetrievePackage) : Bool :=
  match d.states pkg.StringRepr with
  | none => false
  | some s => s ≠ PreviouslyInLocalRepoState

/-- `localNpmState.IncrementDownloadedCount`. -/
def LocalNpmState.IncrementDownloadedCount (d : LocalNpmState) : LocalNpmState :=
  { d with downloadedCount := d.downloadedCount + 1 }

/-- `localNpmState.IncrementAnalysedCount`. -/
def LocalNpmState.IncrementAnalysedCount (d : LocalNpmState) : LocalNpmState :=
  { d with analysedCount := d.analysedCount + 1 }

/-- `localNpmState.GetDownloadedCount`. -/
def LocalNpmState.GetDownloadedCount (d : LocalNpmState) : Int := d.downloadedCount

/-- `localNpmState.GetAnalysedCount`. -/
def LocalNpmState.GetAnalysedCount (d : LocalNpmState) : Int := d.analysedCount

/-- Body of the loop of `filterPackages`
(`internal/services/metadata_workers.go`): skip a pre-release version
whose tag is not allowed, then keep versions strictly newer than the
last-sync date. -/
def filterLoop (retrievePkg : RetrievePackage) (lastSyncDate : Time) :
    List NpmPackage → List NpmPackage
  | [] => []
  | npmPkg :: rest =>
    if npmPkg.Version.IsPreRelease && ! retrievePkg.IsMatchingPreRelease npmPkg.Version.PreRelease then
      filterLoop retrievePkg lastSyncDate rest
    else if timeAfter npmPkg.ReleaseDate lastSyncDate then
      npmPkg :: filterLoop retrievePkg lastSyncDate rest
    else
      filterLoop retrievePkg lastSyncDate rest

/-- `metadataWorkerPool.filterPackages`: the version filter, evaluated
against `GetLastSync` of the seed descriptor. -/
def filterPackages (st : LocalNpmState) (npmPackages : List NpmPackage)
    (retrievePkg : RetrievePackage) : List NpmPackage :=
  filterLoop retrievePkg (st.GetLastSync retrievePkg) npmPackages

/-- Acceptance clause of the version filter as the specification words it:
the descriptor carries a pre-release predicate that matches the tag. -/
def carriesMatchingPredicate (d : RetrievePackage) (tag : String) : Prop :=
  ∃ re : Regexp, d.allowedPreVersion = some re ∧ re.matchString tag = true

instance (d : RetrievePackage) (tag : String) : Decidable (carriesMatchingPredicate d tag) :=
  match h : d.allowedPreVersion with
  | none => isFalse (by simp [carriesMatchingPredicate, h])
  | some re =>
    decidable_of_iff (re.matchString tag = true) (by simp [carriesMatchingPredicate, h])

/-- Outcome of the filesystem and stream side of one `WriteTarball` call:
directory creation, file creation, or the copy may fail (a failed copy
delivered only the first `bytesWritten` bytes to the file and the hasher);
`copied` means the whole stream went through. -/
inductive WriteOutcome where
  | mkdirFailed
  | createFailed
  | copyFailed (bytesWritten : Nat)
  | copied
deriving DecidableEq

/-- `integrityChecker.GetSha512`
(`internal/pkg/integrity`): `"sha512-" + base64(hasher.Sum(nil))`, where
the hasher has consumed `written`.  `sha512` and `base64` abstract the Go
standard library primitives. -/
def GetSha512 (sha512 : List Nat → List Nat) (base64 : List Nat → String)
    (written : List Nat) : String :=
  "sha512-" ++ base64 (sha512 written)

/-- Result of `localNpmRepo.WriteTarball`: the bytes now in the tarball
file (`none` when the file was never created) and the returned error. -/
structure TarballWrite where
  fileBytes : Option (List Nat)
  error : Option String

/-- `localNpmRepo.WriteTarball` (repository layer): create the directory
and file, copy the stream through a `MultiWriter` into both the file and a
SHA-512 hasher, then compare the digest against the declared integrity. -/
def WriteTarball (sha512 : List Nat → List Nat) (base64 : List Nat → String)
    (outcome : WriteOutcome) (integrity : String) (data : List Nat) : TarballWrite :=
  match outcome with
  | .mkdirFailed => ⟨none, some "failed to create directory"⟩
  | .createFailed => ⟨none, some "failed to create file"⟩
  | .copyFailed k => ⟨some (data.take k), some "failed to write tarball data"⟩
  | .copied =>
    if integrity ≠ GetSha512 sha512 base64 data then
      ⟨some data, some "integrity hash does not match"⟩
    else
      ⟨some data, none⟩

/-- Drop one trailing carriage return, as `bufio.ScanLines` does. -/
def stripTrailingCR (cs : List Char) : List Char :=
  if cs.getLast? = some '\r' then cs.dropLast else cs

/-- `bufio.MaxScanTokenSize` (64 KiB), the default token-size limit of
`bufio.Scanner`. -/
def maxScanTokenSize : Nat := 65536

/-- UTF-8 encoded byte length of a character list (the buffer space the
Go scanner needs for it). -/
def utf8Len (cs : List Char) : Nat := (cs.map Char.utf8Size).sum

/-- Accumulator-based model of `bufio.Scanner` with the `ScanLines` split
function: tokens are newline-separated, a trailing carriage return is
dropped, and a final empty token after a trailing newline is not
produced.  When the pending token fills the 64 KiB buffer before a
newline is found, scanning aborts: the second component is `true`
(`Scan` returned false with `Err() = bufio.ErrTooLong`) and only the
tokens already yielded are kept. -/
def scanAux : List Char → List Char → List String × Bool
  | [], acc =>
    if maxScanTokenSize ≤ utf8Len acc then ([], true)
    else if acc.isEmpty then ([], false)
    else ([String.mk (stripTrailingCR acc)], false)
  | c :: cs, acc =>
    if maxScanTokenSize ≤ utf8Len acc then ([], true)
    else if c = '\n' then
      let r := scanAux cs []
      (String.mk (stripTrailingCR acc) :: r.1, r.2)
    else scanAux cs (acc ++ [c])

/-- The sequence of lines `fs.NewScanner` yields on a file's contents. -/
def scanLines (s : String) : List String := (scanAux s.data []).1

/-- Whether scanning the contents stops with `bufio.ErrTooLong`, which
`scanner.Err()` then reports. -/
def scanTooLong (s : String) : Bool := (scanAux s.data []).2

/-- Go `strings.HasPrefix`, at the character-list level (byte-wise and
codepoint-wise prefixes agree on valid UTF-8). -/
def goHasPrefix (s p : String) : Bool := p.data.isPrefixOf s.data

/-- The header label of the state file. -/
def lastSyncLabel : String := "Last sync: "

/-- The date portion of the header line: Go slices the line after the
label (`firstLine[len(prefix):]`) and trims white space around it. -/
def stateDateStr (firstLine : String) : String :=
  goTrimSpace (String.mk (firstLine.data.drop lastSyncLabel.data.length))

/-- `localNpmRepo.LoadDownloadedPackagesState`
(`internal/repositories/local_npm_repository.go`).  The file argument is
`none` when the state file does not exist; `parseRFC3339` abstracts
`time.Parse(time.RFC3339, ·)` (returning `none` on a parse error) and
`compile` abstracts `regexp.Compile` inside `NewRetrievePackage`.  Go's
header and package-line processing consumes the lines the scanner yields
(none after an over-long line); the trailing `scanner.Err()` check turns
an aborted scan into an error, after the header checks have had their
chance to return first. -/
def LoadDownloadedPackagesState (compile : String → Option Regexp)
    (parseRFC3339 : String → Option Time) (file : Option String) :
    Except String (List RetrievePackage × Time) :=
  match file with
  | none => .ok ([], zeroTime)
  | some content =>
    match scanLines content with
    | [] =>
      if scanTooLong content then .error "bufio.Scanner: token too long"
      else .ok ([], zeroTime)
    | firstLine :: rest =>
      if ! goHasPrefix firstLine lastSyncLabel then
        .error "invalid state file format: missing date prefix"
      else
        match parseRFC3339 (stateDateStr firstLine) with
        | none => .error "invalid date format in state file"
        | some lastSync =>
          if scanTooLong content then .error "bufio.Scanner: token too long"
          else
            .ok (rest.foldl (fun acc line =>
              let l := goTrimSpace line
              if l ≠ "" then acc ++ [NewRetrievePackage compile l] else acc) [], lastSync)

/-- `localNpmRepo.SaveDownloadedPackagesState`: the produced file contents
(the header line, then one fingerprint per line); `formatRFC3339`
abstracts `lastSync.Format(time.RFC3339)`. -/
def SaveDownloadedPackagesState (formatRFC3339 : Time → String)
    (packages : List RetrievePackage) (lastSync : Time) : String :=
  packages.foldl (fun acc pkg => acc ++ pkg.StringRepr ++ "\n")
    (lastSyncLabel ++ formatRFC3339 lastSync ++ "\n")

/-- Outcome of one attempt of the three-step metadata operation in
`fetchMetadata` (`internal/services/metadata_workers.go`): the fetch, the
tee-write, or the decode fails, or the decode yields the package list. -/
inductive AttemptOutcome where
  | fetchErr
  | writeErr
  | decodeErr
  | ok (packages : List NpmPackage)

/-- Whether the attempt failed at one of the three steps. -/
def AttemptOutcome.failed : AttemptOutcome → Bool
  | .ok _ => false
  | _ => true

/-- The retry loop of `metadataWorkerPool.fetchMetadata`: `attempts k` is
the outcome the environment produces for attempt number `k`; the result
carries the return value and the list of back-off sleeps performed, in
order.  The fuel argument counts the attempts still permitted. -/
def fetchMetadataAux (attempts : Nat → AttemptOutcome) (backoffFactor : Int) (attempt : Nat) :
    Nat → Except Unit (List NpmPackage) × List Int
  | 0 => (.error (), [])
  | fuel + 1 =>
    match attempts attempt with
    | .ok packages => (.ok packages, [])
    | _ =>
      let r := fetchMetadataAux attempts backoffFactor (attempt + 1) fuel
      (r.1, ((attempt : Int) * backoffFactor) :: r.2)

/-- Default retry count (`maxMetadataRetries` in
`internal/services/metadata_workers.go`). -/
def maxMetadataRetries : Nat := 5

/-- `metadataWorkerPool.fetchMetadata`: attempts run from 1 up to
`maxRetries`; each failed attempt number `k` sleeps `k * backoffFactor`. -/
def fetchMetadata (attempts : Nat → AttemptOutcome) (backoffFactor : Int) (maxRetries : Nat) :
    Except Unit (List NpmPackage) × List Int :=
  fetchMetadataAux attempts backoffFactor 1 maxRetries

/-- Dependency-enqueueing step inside `retrieveMetadata`: build the seed
descriptor; when its analysis has not started, mark it `AnalysingState`
and put it on the metadata channel. -/
def enqueueDep (compile : String → Option Regexp)
    (acc : LocalNpmState × List RetrievePackage) (dep : String) :
    LocalNpmState × List RetrievePackage :=
  let depPkg := NewRetrievePackage compile dep
  if acc.1.IsAnalysisStarted depPkg then acc
  else (acc.1.SetState depPkg AnalysingState, acc.2 ++ [depPkg])

/-- Per-version step of `retrieveMetadata`: enqueue the version for
download, then enqueue its dependencies and peer dependencies. -/
def processVersion (compile : String → Option Regexp)
    (acc : LocalNpmState × List NpmPackage × List RetrievePackage) (pkg : NpmPackage) :
    LocalNpmState × List NpmPackage × List RetrievePackage :=
  let downloads := acc.2.1 ++ [pkg]
  let s1 := pkg.Dependencies.foldl (enqueueDep compile) (acc.1, acc.2.2)
  let s2 := pkg.PeerDeps.foldl (enqueueDep compile) s1
  (s2.1, downloads, s2.2)

/-- Observable result of `metadataWorkerPool.retrieveMetadata`: the crawl
state afterwards, the versions sent to the download channel, the
descriptors sent to the metadata channel, and whether an error was
returned. -/
structure RetrieveResult where
  state : LocalNpmState
  downloads : List NpmPackage
  enqueued : List RetrievePackage
  errored : Bool

/-- `metadataWorkerPool.retrieveMetadata`: skip an already-analysed
descriptor; otherwise fetch (with retries), filter, emit download tasks
and new frontier descriptors, then mark the descriptor `AnalysedState`
and bump the analysed counter. -/
def retrieveMetadata (compile : String → Option Regexp) (st : LocalNpmState)
    (pkg : RetrievePackage) (attempts : Nat → AttemptOutcome) (backoffFactor : Int)
    (maxRetries : Nat) : RetrieveResult :=
  if ! st.IsAnalysisNeeded pkg then ⟨st, [], [], false⟩
  else
    match (fetchMetadata attempts backoffFactor maxRetries).1 with
    | .error _ => ⟨st, [], [], true⟩
    | .ok packages =>
      let filtered := filterPackages st packages pkg
      let r := filtered.foldl (processVersion compile) (st, [], [])
      ⟨(r.1.SetState pkg AnalysedState).IncrementAnalysedCount, r.2.1, r.2.2, false⟩

/-- The metadata worker's handling of one dequeued descriptor
(`StartWorker` loop in `internal/services/metadata_workers.go`): a
descriptor with an empty name is skipped before any processing. -/
def workerProcess (compile : String → Option Regexp) (st : LocalNpmState)
    (pkg : RetrievePackage) (attempts : Nat → AttemptOutcome) (backoffFactor : Int)
    (maxRetries : Nat) : RetrieveResult :=
  if pkg.Name = "" then ⟨st, [], [], false⟩
  else retrieveMetadata compile st pkg attempts backoffFactor maxRetries

/-- Whether an `Except` result is a success. -/
def exceptOk {ε α : Type} : Except ε α → Bool
  | .ok _ => true
  | .error _ => false

/-! ## Concrete instantiations used to evaluate the model on closed inputs -/

/-- A regular-expression compiler that always fails (models `regexp.Compile`
rejecting every pattern). -/
def exCompile (_ : String) : Option Regexp := none

/-- A regular-expression compiler that accepts every pattern and matches
nothing. -/
def exCompileSome (p : String) : Option Regexp := some ⟨p, fun _ => false⟩

/-- A crawl state with an empty fingerprint map and a non-zero global
last-sync timestamp. -/
def exState : LocalNpmState := ⟨fun _ => none, 5, 0, 0⟩

/-- The seed descriptor for a plain package name. -/
def exSeed : RetrievePackage := NewRetrievePackage exCompile "foo"

/-- A non-pre-release version whose release timestamp is the zero
timestamp (as decoded when the document's `time` map lacks the version). -/
def exVersionZero : NpmPackage := ⟨"foo", ⟨1, 0, 0, ""⟩, [], [], "", "", zeroTime⟩

/-- A non-pre-release version with a positive release timestamp. -/
def exVersionNew : NpmPackage := ⟨"foo", ⟨1, 1, 0, ""⟩, [], [], "", "", 1⟩

/-- A version declaring one dependency whose name is the empty string. -/
def exVersionEmptyDep : NpmPackage := ⟨"foo", ⟨1, 0, 0, ""⟩, [""], [], "", "", 1⟩

/-- Attempt environment whose every attempt decodes to
`[exVersionEmptyDep]`. -/
def exAttemptsOk (_ : Nat) : AttemptOutcome := .ok [exVersionEmptyDep]

/-- Attempt environment whose every attempt fails at the fetch step. -/
def exAttemptsFail (_ : Nat) : AttemptOutcome := .fetchErr

/-- A toy stand-in for the SHA-512 digest function. -/
def exSha (l : List Nat) : List Nat := l

/-- A toy stand-in for base64 encoding. -/
def exB64 (l : List Nat) : String := toString l.length

/-- A toy RFC3339 parser matching `exFormat`. -/
def exParse (s : String) : Option Time := if s = "T0" then some 0 else none

/-- A toy RFC3339 formatter matching `exParse` at timestamp `0`. -/
def exFormat (_ : Time) : String := "T0"

/-! ## Helper lemmas -/

theorem lexCmp_le_zero_iff {α : Type} [LinearOrder α] (x y : α) :
    lexCmp x y ≤ 0 ↔ x ≤ y := by
  unfold lexCmp
  rcases lt_trichotomy x y with h | h | h
  · simp [h, le_of_lt h]
  · simp [h]
  · simp [h, not_lt_of_gt h, not_le_of_lt h]

theorem lexCmp_eq_zero_iff {α : Type} [LinearOrder α] (x y : α) :
    lexCmp x y = 0 ↔ x = y := by
  unfold lexCmp
  rcases lt_trichotomy x y with h | h | h
  · simp [h, h.ne, not_lt_of_gt h]
  · simp [h]
  · simp [h, h.ne', not_lt_of_gt h]

theorem lexCmp_flip {α : Type} [LinearOrder α] (x y : α) :
    lexCmp x y = - lexCmp y x := by
  unfold lexCmp
  rcases lt_trichotomy x y with h | h | h
  · simp [h, not_lt_of_gt h, h.ne, h.ne']
  · subst h; simp
  · simp [h, not_lt_of_gt h, h.ne, h.ne']

theorem SemVer.compare_eq_keyCompare (a b : SemVer) :
    a.Compare b = if a.key < b.key then -1 else if b.key < a.key then 1 else 0 := by
  unfold SemVer.Compare SemVer.key
  rcases lt_trichotomy a.Major b.Major with h | h | h
  · simp [Prod.Lex.lt_iff, h, h.ne, (not_lt_of_gt h), h.ne']
  · rcases lt_trichotomy a.Minor b.Minor with h2 | h2 | h2
    · simp [Prod.Lex.lt_iff, h, h2, h2.ne, not_lt_of_gt h2, h2.ne']
    · rcases lt_trichotomy a.Patch b.Patch with h3 | h3 | h3
      · simp [Prod.Lex.lt_iff, h, h2, h3, h3.ne, not_lt_of_gt h3, h3.ne']
      · by_cases ha : a.PreRelease = "" <;> by_cases hb : b.PreRelease = ""
        · simp [Prod.Lex.lt_iff, h, h2, h3, ha, hb]
        · simp [Prod.Lex.lt_iff, h, h2, h3, ha, hb]
        · simp [Prod.Lex.lt_iff, h, h2, h3, ha, hb]
        · rcases lt_trichotomy a.PreRelease b.PreRelease with h4 | h4 | h4
          · simp [Prod.Lex.lt_iff, h, h2, h3, ha, hb, stringsCompare, h4, h4.ne, not_lt_of_gt h4]
          · simp [Prod.Lex.lt_iff, h, h2, h3, ha, hb, stringsCompare, h4]
          · simp [Prod.Lex.lt_iff, h, h2, h3, ha, hb, stringsCompare, h4, h4.ne, not_lt_of_gt h4,
              h4.ne']
      · simp [Prod.Lex.lt_iff, h, h2, h3, h3.ne, not_lt_of_gt h3, h3.ne']
    · simp [Prod.Lex.lt_iff, h, h2, h2.ne, not_lt_of_gt h2, h2.ne']
  · simp [Prod.Lex.lt_iff, h, h.ne, not_lt_of_gt h, h.ne']

theorem SemVer.compare_eq_lexCmp (a b : SemVer) :
    a.Compare b = lexCmp a.key b.key := by
  rw [SemVer.compare_eq_keyCompare]; rfl

theorem SemVer.key_inj {a b : SemVer} (h : a.key = b.key) : a = b := by
  obtain ⟨ma, mia, pa, pra⟩ := a
  obtain ⟨mb, mib, pb, prb⟩ := b
  unfold SemVer.key at h
  simp only [toLex_inj, Prod.mk.injEq] at h
  obtain ⟨h1, h2, h3, h4⟩ := h
  split_ifs at h4 with ha hb
  all_goals simp_all [Prod.mk.injEq]

theorem accept_iff (d : RetrievePackage) (v : NpmPackage) :
    (v.Version.IsPreRelease && ! d.IsMatchingPreRelease v.Version.PreRelease) = false ↔
      (v.Version.PreRelease = "" ∨
        (v.Version.PreRelease ≠ "" ∧ carriesMatchingPredicate d v.Version.PreRelease)) := by
  cases h : d.allowedPreVersion with
  | none =>
    simp [SemVer.IsPreRelease, RetrievePackage.IsMatchingPreRelease, carriesMatchingPredicate, h]
  | some re =>
    simp [SemVer.IsPreRelease, RetrievePackage.IsMatchingPreRelease, carriesMatchingPredicate, h]
    tauto

theorem filterLoop_eq_filter (d : RetrievePackage) (t : Time) (pkgs : List NpmPackage) :
    filterLoop d t pkgs = pkgs.filter (fun v =>
      decide ((v.Version.PreRelease = "" ∨
          (v.Version.PreRelease ≠ "" ∧ carriesMatchingPredicate d v.Version.PreRelease))
        ∧ t < v.ReleaseDate)) := by
  induction pkgs with
  | nil => rfl
  | cons v rest ih =>
    by_cases hskip : (v.Version.IsPreRelease && ! d.IsMatchingPreRelease v.Version.PreRelease) = true
    · have hnot : ¬ (v.Version.PreRelease = "" ∨
          (v.Version.PreRelease ≠ "" ∧ carriesMatchingPredicate d v.Version.PreRelease)) := by
        intro hc
        rw [← accept_iff d v] at hc
        simp [hc] at hskip
      simp [filterLoop, hskip, ih, hnot]
    · have hacc := (accept_iff d v).mp (by simpa using hskip)
      by_cases hafter : timeAfter v.ReleaseDate t = true
      · have ht : t < v.ReleaseDate := by simpa [timeAfter] using hafter
        simp [filterLoop, hskip, hafter, ih, hacc, ht]
      · have ht : ¬ t < v.ReleaseDate := by simpa [timeAfter] using hafter
        simp [filterLoop, hskip, hafter, ih, ht]

theorem fetchMetadataAux_fail_step (attempts : Nat → AttemptOutcome) (b : Int)
    (k fuel : Nat) (hk : (attempts k).failed = true) :
    fetchMetadataAux attempts b k (fuel + 1)
      = ((fetchMetadataAux attempts b (k + 1) fuel).1,
         ((k : Nat) : Int) * b :: (fetchMetadataAux attempts b (k + 1) fuel).2) := by
  cases o : attempts k with
  | ok p => rw [o] at hk; simp [AttemptOutcome.failed] at hk
  | fetchErr => simp [fetchMetadataAux, o]
  | writeErr => simp [fetchMetadataAux, o]
  | decodeErr => simp [fetchMetadataAux, o]

theorem fetchMetadataAux_sleeps_le (attempts : Nat → AttemptOutcome) (b : Int) :
    ∀ fuel k, (fetchMetadataAux attempts b k fuel).2.length ≤ fuel := by
  intro fuel
  induction fuel with
  | zero => intro k; simp [fetchMetadataAux]
  | succ n ih =>
    intro k
    cases o : attempts k with
    | ok p => simp [fetchMetadataAux, o]
    | fetchErr =>
      simp only [fetchMetadataAux, o, List.length_cons]
      exact Nat.succ_le_succ (ih (k + 1))
    | writeErr =>
      simp only [fetchMetadataAux, o, List.length_cons]
      exact Nat.succ_le_succ (ih (k + 1))
    | decodeErr =>
      simp only [fetchMetadataAux, o, List.length_cons]
      exact Nat.succ_le_succ (ih (k + 1))

theorem stripTrailingCR_id {cs : List Char} (h : cs.getLast? ≠ some '\r') :
    stripTrailingCR cs = cs := by
  unfold stripTrailingCR
  rw [if_neg h]

theorem save_foldl_data (ds : List RetrievePackage) (acc : String) :
    (ds.foldl (fun a pkg => a ++ pkg.StringRepr ++ "\n") acc).data
      = acc.data ++ (ds.map (fun d => d.StringRepr.data ++ ['\n'])).flatten := by
  induction ds generalizing acc with
  | nil => simp
  | cons d rest ih =>
    simp only [List.foldl_cons, List.map_cons, List.flatten_cons]
    rw [ih]
    simp [String.data_append]

theorem utf8Len_append (a b : List Char) : utf8Len (a ++ b) = utf8Len a + utf8Len b := by
  simp [utf8Len]

theorem scanAux_line (l rest : List Char) (acc : List Char) (h : '\n' ∉ l)
    (hlen : utf8Len (acc ++ l) < maxScanTokenSize) :
    scanAux (l ++ '\n' :: rest) acc
      = (String.mk (stripTrailingCR (acc ++ l)) :: (scanAux rest []).1,
         (scanAux rest []).2) := by
  induction l generalizing acc with
  | nil =>
    have hfit : ¬ maxScanTokenSize ≤ utf8Len acc := by
      rw [List.append_nil] at hlen
      omega
    simp [scanAux, hfit]
  | cons c cs ih =>
    have hc : ¬ (c = '\n') := fun hc => h (hc ▸ List.mem_cons_self c cs)
    have hmem : '\n' ∉ cs := fun hm => h (List.mem_cons_of_mem c hm)
    have hfit : ¬ maxScanTokenSize ≤ utf8Len acc := by
      rw [utf8Len_append] at hlen
      omega
    have hlen' : utf8Len ((acc ++ [c]) ++ cs) < maxScanTokenSize := by
      rw [List.append_assoc, List.singleton_append]
      exact hlen
    simp only [List.cons_append, scanAux, if_neg hfit, if_neg hc, List.append_eq]
    rw [ih (acc ++ [c]) hmem hlen']
    simp

theorem scanAux_saved (ds : List RetrievePackage)
    (h : ∀ d ∈ ds, '\n' ∉ d.StringRepr.data ∧ d.StringRepr.data.getLast? ≠ some '\r'
      ∧ utf8Len d.StringRepr.data < maxScanTokenSize) :
    scanAux ((ds.map (fun d => d.StringRepr.data ++ ['\n'])).flatten) []
      = (ds.map (fun d => d.StringRepr), false) := by
  induction ds with
  | nil => rfl
  | cons d rest ih =>
    obtain ⟨hnl, hcr, hshort⟩ := h d (List.mem_cons_self d rest)
    have hrest := fun x hx => h x (List.mem_cons_of_mem d hx)
    have hlen : utf8Len ([] ++ d.StringRepr.data) < maxScanTokenSize := by
      rw [List.nil_append]
      exact hshort
    simp only [List.map_cons, List.flatten_cons, List.append_assoc, List.singleton_append]
    rw [scanAux_line _ _ [] hnl hlen, ih hrest]
    simp [stripTrailingCR_id hcr]

theorem load_lines (compile : String → Option Regexp) (ds : List RetrievePackage)
    (h : ∀ d ∈ ds, NewRetrievePackage compile d.StringRepr = d
      ∧ d.StringRepr ≠ "" ∧ goTrimSpace d.StringRepr = d.StringRepr) :
    ∀ acc : List RetrievePackage,
      (ds.map (fun d => d.StringRepr)).foldl
        (fun acc line =>
          let l := goTrimSpace line
          if l ≠ "" then acc ++ [NewRetrievePackage compile l] else acc) acc
      = acc ++ ds := by
  induction ds with
  | nil => intro acc; simp
  | cons d rest ih =>
    intro acc
    obtain ⟨hwf, hne, htr⟩ := h d (List.mem_cons_self d rest)
    have hrest := fun x hx => h x (List.mem_cons_of_mem d hx)
    simp only [List.map_cons, List.foldl_cons]
    rw [show (let l := goTrimSpace d.StringRepr
        if l ≠ "" then acc ++ [NewRetrievePackage compile l] else acc) = acc ++ [d] by
      simp only [htr]
      rw [if_pos hne, hwf]]
    rw [ih hrest (acc ++ [d])]
    simp

theorem newRetrieve_fullName (compile : String → Option Regexp) (s : String) :
    (NewRetrievePackage compile s).fullName =
      (match (NewRetrievePackage compile s).allowedPreVersion with
       | none => (NewRetrievePackage compile s).Name
       | some r => (NewRetrievePackage compile s).Name ++ "|" ++ r.source) := rfl

/-! ## Claim theorems -/

/-- C9: `SemVer.Compare` is a total order on `SemVer` values (it is
reflexive in the sense of returning `0` on equal arguments, discerns
equality, is antisymmetric under negation, trichotomous, and transitive),
and whenever two versions agree on major, minor and patch and exactly one
carries a pre-release tag, the tagged one compares strictly less. -/
theorem semver_compare_total_order :
    (∀ a : SemVer, a.Compare a = 0)
    ∧ (∀ a b : SemVer, a.Compare b = 0 → a = b)
    ∧ (∀ a b : SemVer, a.Compare b = - b.Compare a)
    ∧ (∀ a b : SemVer, a.Compare b = -1 ∨ a.Compare b = 0 ∨ a.Compare b = 1)
    ∧ (∀ a b c : SemVer, a.Compare b ≤ 0 → b.Compare c ≤ 0 → a.Compare c ≤ 0)
    ∧ (∀ a b : SemVer, a.Major = b.Major → a.Minor = b.Minor → a.Patch = b.Patch →
        a.IsPreRelease = true → b.IsPreRelease = false → a.Compare b = -1) := by
  refine ⟨?_, ?_, ?_, ?_, ?_, ?_⟩
  · intro a
    rw [SemVer.compare_eq_lexCmp, lexCmp_eq_zero_iff]
  · intro a b h
    rw [SemVer.compare_eq_lexCmp, lexCmp_eq_zero_iff] at h
    exact SemVer.key_inj h
  · intro a b
    rw [SemVer.compare_eq_lexCmp, SemVer.compare_eq_lexCmp, lexCmp_flip]
  · intro a b
    rw [SemVer.compare_eq_lexCmp]
    unfold lexCmp
    split_ifs <;> simp
  · intro a b c hab hbc
    rw [SemVer.compare_eq_lexCmp, lexCmp_le_zero_iff] at hab hbc ⊢
    exact le_trans hab hbc
  · intro a b h1 h2 h3 h4 h5
    simp only [SemVer.IsPreRelease, ne_eq, decide_eq_true_eq, decide_eq_false_iff_not,
      not_not] at h4 h5
    unfold SemVer.Compare
    simp [h1, h2, h3, h4, h5]

/-- Witness for C9: the transitivity and pre-release clauses evaluated at
concrete versions. -/
theorem semver_compare_total_order_witness :
    (SemVer.mk 1 0 0 "rc1").Compare (SemVer.mk 1 0 0 "") = -1 :=
  semver_compare_total_order.2.2.2.2.2 (SemVer.mk 1 0 0 "rc1") (SemVer.mk 1 0 0 "")
    rfl rfl rfl (by decide) (by decide)

/-- C1: the version filter returns exactly those decoded versions that
either carry no pre-release tag or carry one matched by the descriptor's
pre-release predicate, and whose release timestamp is strictly greater
than `GetLastSync` of the descriptor; all other versions are excluded. -/
theorem filterPackages_exactly (st : LocalNpmState) (pkgs : List NpmPackage)
    (d : RetrievePackage) :
    filterPackages st pkgs d = pkgs.filter (fun v =>
      decide ((v.Version.PreRelease = "" ∨
          (v.Version.PreRelease ≠ "" ∧ carriesMatchingPredicate d v.Version.PreRelease))
        ∧ st.GetLastSync d < v.ReleaseDate)) :=
  filterLoop_eq_filter d (st.GetLastSync d) pkgs

/-- C3 counterexample: a first-time descriptor (absent from the map)
with a version that passes the pre-release rule but whose release
timestamp equals the zero timestamp — the code drops it, while the claim
says every version accepted by the pre-release rule passes. -/
theorem filterPackages_zero_timestamp_dropped :
    exState.states exSeed.StringRepr = none
    ∧ (exVersionZero.Version.IsPreRelease
        && ! exSeed.IsMatchingPreRelease exVersionZero.Version.PreRelease) = false
    ∧ filterPackages exState [exVersionZero] exSeed = [] :=
  ⟨rfl, rfl, rfl⟩

/-- C3 (amended): for a descriptor absent from the crawl-state map,
`GetLastSync` is the zero timestamp, and the filter keeps exactly the
versions accepted by the pre-release rule whose release timestamp is
strictly greater than the zero timestamp; a version whose release
timestamp is at or before the zero timestamp is still dropped. -/
theorem filterPackages_first_time (st : LocalNpmState) (pkgs : List NpmPackage)
    (d : RetrievePackage) (h : st.states d.StringRepr = none) :
    st.GetLastSync d = zeroTime
    ∧ filterPackages st pkgs d = pkgs.filter (fun v =>
        decide ((v.Version.PreRelease = "" ∨
            (v.Version.PreRelease ≠ "" ∧ carriesMatchingPredicate d v.Version.PreRelease))
          ∧ zeroTime < v.ReleaseDate)) := by
  have hz : st.GetLastSync d = zeroTime := by
    simp [LocalNpmState.GetLastSync, h]
  refine ⟨hz, ?_⟩
  unfold filterPackages
  rw [hz, filterLoop_eq_filter]

/-- Witness for C3 (amended): a first-time descriptor and a version with
a positive release timestamp, which passes. -/
theorem filterPackages_first_time_witness :
    LocalNpmState.GetLastSync exState exSeed = zeroTime
    ∧ filterPackages exState [exVersionNew] exSeed = [exVersionNew] := by
  have h := filterPackages_first_time exState [exVersionNew] exSeed rfl
  exact ⟨h.1, by rw [h.2]; rfl⟩

/-- C10: each increment bumps exactly its own counter and leaves the map,
the last-sync timestamp and the other counter unchanged; `SetState`
touches only the map entry of the descriptor's fingerprint and leaves
both counters and the timestamp unchanged. -/
theorem counters_and_setState_frame :
    (∀ st : LocalNpmState,
      (st.IncrementAnalysedCount).analysedCount = st.analysedCount + 1
      ∧ (st.IncrementAnalysedCount).downloadedCount = st.downloadedCount
      ∧ (st.IncrementAnalysedCount).states = st.states
      ∧ (st.IncrementAnalysedCount).lastSync = st.lastSync)
    ∧ (∀ st : LocalNpmState,
      (st.IncrementDownloadedCount).downloadedCount = st.downloadedCount + 1
      ∧ (st.IncrementDownloadedCount).analysedCount = st.analysedCount
      ∧ (st.IncrementDownloadedCount).states = st.states
      ∧ (st.IncrementDownloadedCount).lastSync = st.lastSync)
    ∧ (∀ (st : LocalNpmState) (pkg : RetrievePackage) (v : Int),
      (st.SetState pkg v).states pkg.StringRepr = some v
      ∧ (∀ k, k ≠ pkg.StringRepr → (st.SetState pkg v).states k = st.states k)
      ∧ (st.SetState pkg v).analysedCount = st.analysedCount
      ∧ (st.SetState pkg v).downloadedCount = st.downloadedCount
      ∧ (st.SetState pkg v).lastSync = st.lastSync) := by
  refine ⟨fun st => ⟨rfl, rfl, rfl, rfl⟩, fun st => ⟨rfl, rfl, rfl, rfl⟩,
    fun st pkg v => ⟨?_, ?_, rfl, rfl, rfl⟩⟩
  · simp [LocalNpmState.SetState]
  · intro k hk
    simp [LocalNpmState.SetState, hk]

/-- Witness for C10: the frame property of `SetState` evaluated at a key
other than the descriptor's fingerprint. -/
theorem counters_and_setState_frame_witness :
    (exState.SetState exSeed 2).states "other" = exState.states "other" :=
  (counters_and_setState_frame.2.2 exState exSeed 2).2.1 "other" (by decide)

/-- C2: `WriteTarball` returns an error iff directory creation, file
creation, or the copy fails, or the declared integrity differs from
`"sha512-" + base64(sha512(bytes written))`; on success the file holds
exactly the streamed bytes and their digest equals the declared
integrity. -/
theorem writeTarball_spec (sha512 : List Nat → List Nat) (base64 : List Nat → String)
    (outcome : WriteOutcome) (integrity : String) (data : List Nat) :
    ((WriteTarball sha512 base64 outcome integrity data).error ≠ none ↔
      (outcome = .mkdirFailed ∨ outcome = .createFailed
        ∨ (∃ k, outcome = .copyFailed k)
        ∨ integrity ≠ GetSha512 sha512 base64 data))
    ∧ ((WriteTarball sha512 base64 outcome integrity data).error = none →
        (WriteTarball sha512 base64 outcome integrity data).fileBytes = some data
        ∧ GetSha512 sha512 base64 data = integrity) := by
  cases outcome with
  | mkdirFailed => simp [WriteTarball]
  | createFailed => simp [WriteTarball]
  | copyFailed k => simp [WriteTarball]
  | copied =>
    by_cases h : integrity = GetSha512 sha512 base64 data
    · simp [WriteTarball, h]
    · simp [WriteTarball, h]

/-- C7: the crawl state is keyed by the full fingerprint, so two
constructor-built descriptors with the same name but different
pre-release predicate sources have different fingerprints, and setting
the lifecycle state of one leaves `IsAnalysisNeeded` and
`IsAnalysisStarted` of the other unchanged. -/
theorem setState_distinct_fingerprints (compile : String → Option Regexp) (s1 s2 : String)
    (st : LocalNpmState) (v : Int)
    (hname : (NewRetrievePackage compile s1).Name = (NewRetrievePackage compile s2).Name)
    (hpred : (NewRetrievePackage compile s1).allowedPreVersion.map Regexp.source ≠
      (NewRetrievePackage compile s2).allowedPreVersion.map Regexp.source) :
    (NewRetrievePackage compile s1).StringRepr ≠ (NewRetrievePackage compile s2).StringRepr
    ∧ ((st.SetState (NewRetrievePackage compile s1) v).IsAnalysisNeeded
        (NewRetrievePackage compile s2)
      = st.IsAnalysisNeeded (NewRetrievePackage compile s2))
    ∧ ((st.SetState (NewRetrievePackage compile s1) v).IsAnalysisStarted
        (NewRetrievePackage compile s2)
      = st.IsAnalysisStarted (NewRetrievePackage compile s2)) := by
  have hbar : ("|" : String).length = 1 := rfl
  have hfp : (NewRetrievePackage compile s1).StringRepr
      ≠ (NewRetrievePackage compile s2).StringRepr := by
    unfold RetrievePackage.StringRepr
    rw [newRetrieve_fullName compile s1, newRetrieve_fullName compile s2]
    cases h1 : (NewRetrievePackage compile s1).allowedPreVersion with
    | none =>
      cases h2 : (NewRetrievePackage compile s2).allowedPreVersion with
      | none => rw [h1, h2] at hpred; simp at hpred
      | some r2 =>
        simp only [hname]
        intro hc
        have hl := congrArg String.length hc
        rw [String.length_append, String.length_append, hbar] at hl
        omega
    | some r1 =>
      cases h2 : (NewRetrievePackage compile s2).allowedPreVersion with
      | none =>
        simp only [hname]
        intro hc
        have hl := congrArg String.length hc
        rw [String.length_append, String.length_append, hbar] at hl
        omega
      | some r2 =>
        rw [h1, h2] at hpred
        simp only [Option.map_some', ne_eq, Option.some.injEq] at hpred
        simp only [hname]
        intro hc
        apply hpred
        have hd := congrArg String.data hc
        simp only [String.data_append, List.append_assoc] at hd
        exact String.ext (List.append_cancel_left (List.append_cancel_left hd))
  have hstates : (st.SetState (NewRetrievePackage compile s1) v).states
      (NewRetrievePackage compile s2).StringRepr
      = st.states (NewRetrievePackage compile s2).StringRepr := by
    simp only [LocalNpmState.SetState]
    rw [if_neg (fun hc => hfp hc.symm)]
  refine ⟨hfp, ?_, ?_⟩
  · unfold LocalNpmState.IsAnalysisNeeded
    rw [hstates]
  · unfold LocalNpmState.IsAnalysisStarted
    rw [hstates]

/-- Witness for C7: a plain seed and a predicated seed for the same
package name are distinct crawl targets. -/
theorem setState_distinct_fingerprints_witness :
    (NewRetrievePackage exCompileSome "foo").StringRepr
      ≠ (NewRetrievePackage exCompileSome "foo|alpha").StringRepr :=
  (setState_distinct_fingerprints exCompileSome "foo" "foo|alpha" exState 2 rfl
    (by decide)).1

/-- C6: with the default retry count of 5, if every attempt of the
fetch/tee-write/decode unit fails, `fetchMetadata` sleeps `k * backoff`
after the k-th failed attempt and returns an error; `retrieveMetadata`
then returns an error leaving the crawl state untouched, so the
descriptor is not set to `AnalysedState` and the analysed counter is not
incremented; and in general the unit is attempted at most `maxRetries`
times (one sleep per failed attempt). -/
theorem fetchMetadata_retry (compile : String → Option Regexp) (st : LocalNpmState)
    (pkg : RetrievePackage) (attempts : Nat → AttemptOutcome) (backoffFactor : Int)
    (hfail : ∀ k, 1 ≤ k → k ≤ maxMetadataRetries → (attempts k).failed = true)
    (hneed : st.IsAnalysisNeeded pkg = true) :
    fetchMetadata attempts backoffFactor maxMetadataRetries
      = (.error (), [1 * backoffFactor, 2 * backoffFactor, 3 * backoffFactor,
          4 * backoffFactor, 5 * backoffFactor])
    ∧ retrieveMetadata compile st pkg attempts backoffFactor maxMetadataRetries
      = ⟨st, [], [], true⟩
    ∧ (∀ (attempts2 : Nat → AttemptOutcome) (b2 : Int) (m : Nat),
        (fetchMetadata attempts2 b2 m).2.length ≤ m) := by
  have e6 : fetchMetadataAux attempts backoffFactor 6 0 = (.error (), []) := rfl
  have e5 := fetchMetadataAux_fail_step attempts backoffFactor 5 0
    (hfail 5 (by decide) (by decide))
  rw [e6] at e5
  have e5' : fetchMetadataAux attempts backoffFactor 5 1
      = (.error (), [5 * backoffFactor]) := e5
  have e4 := fetchMetadataAux_fail_step attempts backoffFactor 4 1
    (hfail 4 (by decide) (by decide))
  rw [e5'] at e4
  have e4' : fetchMetadataAux attempts backoffFactor 4 2
      = (.error (), [4 * backoffFactor, 5 * backoffFactor]) := e4
  have e3 := fetchMetadataAux_fail_step attempts backoffFactor 3 2
    (hfail 3 (by decide) (by decide))
  rw [e4'] at e3
  have e3' : fetchMetadataAux attempts backoffFactor 3 3
      = (.error (), [3 * backoffFactor, 4 * backoffFactor, 5 * backoffFactor]) := e3
  have e2 := fetchMetadataAux_fail_step attempts backoffFactor 2 3
    (hfail 2 (by decide) (by decide))
  rw [e3'] at e2
  have e2' : fetchMetadataAux attempts backoffFactor 2 4
      = (.error (), [2 * backoffFactor, 3 * backoffFactor, 4 * backoffFactor,
          5 * backoffFactor]) := e2
  have e1 := fetchMetadataAux_fail_step attempts backoffFactor 1 4
    (hfail 1 (by decide) (by decide))
  rw [e2'] at e1
  have hmeta : fetchMetadata attempts backoffFactor maxMetadataRetries
      = (.error (), [1 * backoffFactor, 2 * backoffFactor, 3 * backoffFactor,
          4 * backoffFactor, 5 * backoffFactor]) := e1
  refine ⟨hmeta, ?_, ?_⟩
  · have hfst : (fetchMetadata attempts backoffFactor maxMetadataRetries).1
        = .error () := by rw [hmeta]
    unfold retrieveMetadata
    rw [hneed, hfst]
    rfl
  · intro attempts2 b2 m
    exact fetchMetadataAux_sleeps_le attempts2 b2 m 1

/-- Witness for C6: all five attempts fail at the fetch step, so the
processing function reports an error. -/
theorem fetchMetadata_retry_witness :
    (retrieveMetadata exCompile exState exSeed exAttemptsFail 2 maxMetadataRetries).errored
      = true :=
  congrArg RetrieveResult.errored
    (fetchMetadata_retry exCompile exState exSeed exAttemptsFail 2
      (fun _ _ _ => rfl) rfl).2.1

/-- C8 counterexample: processing a selected version that declares a
dependency with an empty name does enqueue the empty-named descriptor on
the metadata channel, contrary to the claim that it is never enqueued. -/
theorem empty_dep_enqueued :
    (retrieveMetadata exCompile exState exSeed exAttemptsOk 1 maxMetadataRetries).enqueued
      = [NewRetrievePackage exCompile ""]
    ∧ (NewRetrievePackage exCompile "").Name = "" :=
  ⟨rfl, rfl⟩

/-- C8 (amended): an empty-named dependency can be enqueued, but the
worker loop skips every empty-named descriptor it dequeues: no fetch, no
state change, nothing enqueued, no error. -/
theorem worker_skips_empty_name (compile : String → Option Regexp) (st : LocalNpmState)
    (pkg : RetrievePackage) (attempts : Nat → AttemptOutcome) (b : Int) (m : Nat)
    (h : pkg.Name = "") :
    workerProcess compile st pkg attempts b m = ⟨st, [], [], false⟩ := by
  unfold workerProcess
  rw [if_pos h]

/-- Witness for C8 (amended): the empty-named descriptor, once dequeued,
is skipped. -/
theorem worker_skips_empty_name_witness :
    workerProcess exCompile exState (NewRetrievePackage exCompile "") exAttemptsOk 1 5
      = ⟨exState, [], [], false⟩ :=
  worker_skips_empty_name exCompile exState (NewRetrievePackage exCompile "") exAttemptsOk
    1 5 rfl

/-- C4 counterexample: an existing but empty state file (the scanner
yields no line and no scanner error, so there is no first line beginning
with the header label) loads without error as the empty state, contrary
to the claim that every existing state file without a valid header is an
error. -/
theorem loadState_empty_file_ok :
    LoadDownloadedPackagesState exCompile exParse (some "") = .ok ([], zeroTime)
    ∧ scanLines "" = [] ∧ scanTooLong "" = false :=
  ⟨rfl, rfl, rfl⟩

/-- C4 (amended): a missing state file loads as the empty state without
error; for every existing state file, loading fails iff the scanner
aborts with `bufio.ErrTooLong` (a line over the 64 KiB token limit) or a
first line is yielded that does not begin with `"Last sync: "` with a
remainder that parses as an RFC3339 timestamp; in particular an existing
file yielding no line and no scanner error loads as the empty state. -/
theorem loadState_error_conditions (compile : String → Option Regexp)
    (parseRFC3339 : String → Option Time) (content : String) :
    LoadDownloadedPackagesState compile parseRFC3339 none = .ok ([], zeroTime)
    ∧ (scanLines content = [] → scanTooLong content = false →
        LoadDownloadedPackagesState compile parseRFC3339 (some content) = .ok ([], zeroTime))
    ∧ (exceptOk (LoadDownloadedPackagesState compile parseRFC3339 (some content)) = false ↔
        (scanTooLong content = true
          ∨ ∃ firstLine rest, scanLines content = firstLine :: rest
              ∧ ¬ (goHasPrefix firstLine lastSyncLabel = true
                ∧ (parseRFC3339 (stateDateStr firstLine)).isSome = true))) := by
  refine ⟨rfl, ?_, ?_⟩
  · intro h ht
    simp only [LoadDownloadedPackagesState]
    rw [h, ht]
    rfl
  · cases hs : scanLines content with
    | nil =>
      simp only [LoadDownloadedPackagesState, hs]
      cases ht : scanTooLong content with
      | true => simp [exceptOk, ht]
      | false => simp [exceptOk, ht]
    | cons firstLine rest =>
      simp only [LoadDownloadedPackagesState, hs]
      by_cases hp : goHasPrefix firstLine lastSyncLabel = true
      · rw [hp]
        cases hq : parseRFC3339 (stateDateStr firstLine) with
        | none => simp [exceptOk, hp, hq]
        | some v =>
          cases ht : scanTooLong content with
          | true => simp [exceptOk, hp, hq, ht]
          | false => simp [exceptOk, hp, hq, ht]
      · have hp' : goHasPrefix firstLine lastSyncLabel = false := by
          simpa using hp
        rw [hp']
        simp [exceptOk, hp']

/-- Witness for C4 (amended): a file whose only line lacks the header
label fails to load. -/
theorem loadState_error_conditions_witness :
    exceptOk (LoadDownloadedPackagesState exCompile exParse (some "nope")) = false :=
  (loadState_error_conditions exCompile exParse "nope").2.2.mpr
    (Or.inr ⟨"nope", [], rfl, by decide⟩)

/-- C5 counterexample: a descriptor whose fingerprint is the empty string
(as built from the empty seed name) is written as a blank line, which
loading skips; the loaded descriptor set is empty instead of equal to the
input list. -/
theorem saveLoad_empty_fingerprint_lost :
    LoadDownloadedPackagesState exCompile exParse
      (some (SaveDownloadedPackagesState exFormat [NewRetrievePackage exCompile ""] 0))
      = .ok ([], 0)
    ∧ (NewRetrievePackage exCompile "").StringRepr = ""
    ∧ ([] : List RetrievePackage) ≠ [NewRetrievePackage exCompile ""] :=
  ⟨rfl, rfl, by simp⟩

/-- C5 (amended): loading right after saving returns exactly the saved
descriptor list and the timestamp the RFC3339 codec round-trips to,
provided every descriptor is constructor-built from its own fingerprint
and its fingerprint is nonempty, contains no newline, does not end in a
carriage return, stays under the scanner's 64 KiB token limit, and is
unchanged by Unicode white-space trimming (the formatted timestamp being
similarly line-safe). -/
theorem saveLoad_roundtrip (compile : String → Option Regexp)
    (formatRFC3339 : Time → String) (parseRFC3339 : String → Option Time)
    (ds : List RetrievePackage) (t t' : Time)
    (hcodec : parseRFC3339 (formatRFC3339 t) = some t')
    (hfnl : '\n' ∉ (formatRFC3339 t).data)
    (hfcr : (lastSyncLabel ++ formatRFC3339 t).data.getLast? ≠ some '\r')
    (hflen : utf8Len (lastSyncLabel ++ formatRFC3339 t).data < maxScanTokenSize)
    (hftr : goTrimSpace (formatRFC3339 t) = formatRFC3339 t)
    (hds : ∀ d ∈ ds, NewRetrievePackage compile d.StringRepr = d
      ∧ d.StringRepr ≠ "" ∧ '\n' ∉ d.StringRepr.data
      ∧ d.StringRepr.data.getLast? ≠ some '\r'
      ∧ utf8Len d.StringRepr.data < maxScanTokenSize
      ∧ goTrimSpace d.StringRepr = d.StringRepr) :
    LoadDownloadedPackagesState compile parseRFC3339
      (some (SaveDownloadedPackagesState formatRFC3339 ds t)) = .ok (ds, t') := by
  have hnlfirst : '\n' ∉ (lastSyncLabel ++ formatRFC3339 t).data := by
    rw [String.data_append]
    intro hm
    rcases List.mem_append.mp hm with hm | hm
    · revert hm; decide
    · exact hfnl hm
  have hcontent : (SaveDownloadedPackagesState formatRFC3339 ds t).data
      = (lastSyncLabel ++ formatRFC3339 t).data
        ++ '\n' :: (ds.map (fun d => d.StringRepr.data ++ ['\n'])).flatten := by
    unfold SaveDownloadedPackagesState
    rw [save_foldl_data]
    simp [String.data_append]
  have hscan : scanAux (SaveDownloadedPackagesState formatRFC3339 ds t).data []
      = ((lastSyncLabel ++ formatRFC3339 t) :: ds.map (fun d => d.StringRepr), false) := by
    rw [hcontent, scanAux_line _ _ [] hnlfirst (by rw [List.nil_append]; exact hflen),
      scanAux_saved ds (fun d hd =>
        ⟨(hds d hd).2.2.1, (hds d hd).2.2.2.1, (hds d hd).2.2.2.2.1⟩)]
    simp only [List.nil_append, stripTrailingCR_id hfcr]
  have hlines : scanLines (SaveDownloadedPackagesState formatRFC3339 ds t)
      = (lastSyncLabel ++ formatRFC3339 t) :: ds.map (fun d => d.StringRepr) := by
    unfold scanLines
    rw [hscan]
  have hflag : scanTooLong (SaveDownloadedPackagesState formatRFC3339 ds t) = false := by
    unfold scanTooLong
    rw [hscan]
  have hpfx : goHasPrefix (lastSyncLabel ++ formatRFC3339 t) lastSyncLabel = true := by
    unfold goHasPrefix
    rw [String.data_append, List.isPrefixOf_iff_prefix]
    exact List.prefix_append _ _
  have hdate : stateDateStr (lastSyncLabel ++ formatRFC3339 t) = formatRFC3339 t := by
    unfold stateDateStr
    rw [String.data_append, List.drop_left]
    exact hftr
  simp only [LoadDownloadedPackagesState]
  rw [hlines]
  simp only [hpfx, Bool.not_true, hdate, hcodec, hflag, Bool.false_eq_true, if_false]
  rw [load_lines compile ds
    (fun d hd => ⟨(hds d hd).1, (hds d hd).2.1, (hds d hd).2.2.2.2.2⟩) []]
  simp

/-- Witness for C5 (amended): one well-formed descriptor and the toy
codec round-trip at timestamp zero. -/
theorem saveLoad_roundtrip_witness :
    LoadDownloadedPackagesState exCompile exParse
      (some (SaveDownloadedPackagesState exFormat [exSeed] 0)) = .ok ([exSeed], 0) :=
  saveLoad_roundtrip exCompile exFormat exParse [exSeed] 0 0 rfl (by decide) (by decide)
    (by decide) rfl
    (fun d hd => by
      rw [List.mem_singleton] at hd
      subst hd
      exact ⟨rfl, by decide, by decide, by decide, by decide, rfl⟩)

/-- Witness for C2: a successful write of two bytes with the matching
digest. -/
theorem writeTarball_spec_witness :
    (WriteTarball exSha exB64 .copied (GetSha512 exSha exB64 [1, 2]) [1, 2]).fileBytes
      = some [1, 2] :=
  ((writeTarball_spec exSha exB64 .copied (GetSha512 exSha exB64 [1, 2]) [1, 2]).2 rfl).1

end NpmOffline
